import Mathlib

/-!
Verification of the team-member selector logic
(src/components/showcase/team-member-selector/TeamMemberSelector.tsx).

The pure derivation stages and event handlers of the component are embedded
as Lean functions over an explicit data model:

* `PersonName`, `TeamMember` mirror the exported `TeamMember` interface;
  optional JS fields become `Option`, and JS string truthiness (empty string
  counts as false) is modelled explicitly where the source relies on it.
* `Array.prototype.sort` with a comparator (a stable sort per the ECMAScript
  specification) is modelled by `List.insertionSort`, which is stable.
* `String.prototype.localeCompare` is modelled as code-point lexicographic
  comparison (`strCmpAux`), `toLowerCase` as a per-character lowering
  (`lowerStr`), and `String.prototype.includes` as list infix (`jsIncludes`).
-/

-- ===========================================================================
-- Data model
-- ===========================================================================

/-- Name record of a team member (`name` field of the `TeamMember` interface). -/
structure PersonName where
  givenName : Option String
  familyName : Option String
  fullName : String
deriving Repr, DecidableEq

/-- Embedding of the exported `TeamMember` interface. -/
structure TeamMember where
  _id : String
  name : PersonName
  primaryEmail : String
  photoUrl : Option String
  role : Option String
  orgTitle : Option String
  orgDepartment : Option String
  isManager : Option Bool
  directReports : Option (List String)
  reportsTo : Option String
deriving Repr, DecidableEq

/-- Selection variant of the component (`variant` prop). -/
inductive Variant where
  | single
  | multiple
deriving Repr, DecidableEq

/-- Sorting strategy (`sortMode` prop). -/
inductive SortMode where
  | none
  | alphabetical
  | management
deriving Repr, DecidableEq

/-- Direction for arrow-key navigation (`"up" | "down"` in the source). -/
inductive Direction where
  | up
  | down
deriving Repr, DecidableEq

-- ===========================================================================
-- String primitives (models of the JS string operations used by the source)
-- ===========================================================================

/-- Code-point lexicographic three-way comparison on character lists; the
model of `localeCompare`'s sign. -/
def strCmpAux : List Char → List Char → Int
  | [], [] => 0
  | [], _ :: _ => -1
  | _ :: _, [] => 1
  | a :: as, b :: bs => if a < b then -1 else if b < a then 1 else strCmpAux as bs

/-- Model of `a.localeCompare(b)` (sign only, which is all `sort` consumes). -/
def localeCompareInt (a b : String) : Int :=
  strCmpAux a.data b.data

/-- Nonstrict string order induced by `localeCompareInt`. -/
def strLe (a b : String) : Prop := localeCompareInt a b ≤ 0

instance (a b : String) : Decidable (strLe a b) := Int.decLe _ _

/-- Model of `s.toLowerCase()`: lower each character. -/
def lowerStr (s : String) : String := String.mk (s.data.map Char.toLower)

/-- Model of `s.includes(sub)`: contiguous substring test. -/
def jsIncludes (s sub : String) : Bool := decide (sub.data <:+: s.data)

theorem strCmpAux_self_le (as : List Char) : strCmpAux as as ≤ 0 := by
  induction as with
  | nil => simp [strCmpAux]
  | cons a as ih => simpa [strCmpAux] using ih

theorem strCmpAux_total (as bs : List Char) :
    strCmpAux as bs ≤ 0 ∨ strCmpAux bs as ≤ 0 := by
  induction as generalizing bs with
  | nil => left; cases bs <;> simp [strCmpAux]
  | cons a as ih =>
    cases bs with
    | nil => right; simp [strCmpAux]
    | cons b bs =>
      rcases lt_trichotomy a b with h | h | h
      · left; simp [strCmpAux, h]
      · subst h
        rcases ih bs with h2 | h2
        · left; simpa [strCmpAux] using h2
        · right; simpa [strCmpAux] using h2
      · right; simp [strCmpAux, h]

theorem strCmpAux_le_cons {a b : Char} {as bs : List Char}
    (h : strCmpAux (a :: as) (b :: bs) ≤ 0) :
    a < b ∨ (a = b ∧ strCmpAux as bs ≤ 0) := by
  by_cases hab : a < b
  · exact Or.inl hab
  · by_cases hba : b < a
    · simp [strCmpAux, hab, hba] at h
    · have : a = b := le_antisymm (not_lt.mp hba) (not_lt.mp hab)
      subst this
      simp only [strCmpAux, if_neg hab, if_neg hba] at h
      exact Or.inr ⟨rfl, h⟩

theorem strCmpAux_trans (as bs cs : List Char)
    (h1 : strCmpAux as bs ≤ 0) (h2 : strCmpAux bs cs ≤ 0) :
    strCmpAux as cs ≤ 0 := by
  induction as generalizing bs cs with
  | nil => cases cs <;> simp [strCmpAux]
  | cons a as ih =>
    cases bs with
    | nil => simp [strCmpAux] at h1
    | cons b bs =>
      cases cs with
      | nil => simp [strCmpAux] at h2
      | cons c cs =>
        rcases strCmpAux_le_cons h1 with hab | ⟨hab, h1t⟩ <;>
          rcases strCmpAux_le_cons h2 with hbc | ⟨hbc, h2t⟩
        · have : a < c := lt_trans hab hbc
          simp [strCmpAux, this]
        · subst hbc; simp [strCmpAux, hab]
        · subst hab; simp [strCmpAux, hbc]
        · subst hab; subst hbc
          have := ih bs cs h1t h2t
          simpa [strCmpAux, lt_irrefl] using this

theorem strLe_refl (a : String) : strLe a a := strCmpAux_self_le a.data

theorem strLe_total (a b : String) : strLe a b ∨ strLe b a :=
  strCmpAux_total a.data b.data

theorem strLe_trans {a b c : String} (h1 : strLe a b) (h2 : strLe b c) :
    strLe a c :=
  strCmpAux_trans a.data b.data c.data h1 h2

theorem data_eq_nil_iff (s : String) : s.data = [] ↔ s = "" :=
  ⟨fun h => by cases s with | mk d => subst h; rfl, fun h => by subst h; rfl⟩

theorem lowerStr_data_eq_nil_iff (s : String) : (lowerStr s).data = [] ↔ s = "" := by
  unfold lowerStr
  rw [show (String.mk (s.data.map Char.toLower)).data = s.data.map Char.toLower from rfl]
  rw [List.map_eq_nil_iff]
  exact data_eq_nil_iff s

-- ===========================================================================
-- Display formatter (`formatDisplayName`) and compact-flag precedence
-- ===========================================================================

/-- Embedding of `formatDisplayName(name, compact)`. JS truthiness of the
optional `givenName` / `familyName` strings (empty string is falsy) is made
explicit; `familyName[0]` is the first character of the family name. -/
def formatDisplayName (n : PersonName) (compact : Bool) : String :=
  if compact = false then n.fullName
  else
    match n.givenName with
    | Option.none => n.fullName
    | Option.some g =>
      if g = "" then n.fullName
      else
        match n.familyName with
        | Option.none => g
        | Option.some f =>
          if f = "" then g else g ++ " " ++ String.mk (f.data.take 1) ++ "."

/-- Resolution of the effective compact flag at the trigger label:
`compactName !== undefined ? compactName : !isSmUp`. -/
def effectiveCompact (compactName : Option Bool) (isSmUp : Bool) : Bool :=
  match compactName with
  | Option.some c => c
  | Option.none => !isSmUp

/-- Trigger-label text for a single selected member (source lines 838-844). -/
def triggerNameLabel (n : PersonName) (compactName : Option Bool) (isSmUp : Bool) : String :=
  formatDisplayName n (effectiveCompact compactName isSmUp)

-- ===========================================================================
-- Selection state machine (`handleToggleMember`)
-- ===========================================================================

/-- Configuration consumed by `handleToggleMember`. -/
structure ToggleConfig where
  disabled : Bool
  variant : Variant
  allowClear : Bool
  maxSelected : Option Nat
deriving Repr, DecidableEq

/-- Embedding of `handleToggleMember`. The multiple-mode cap check models the
JS truthiness guard `maxSelected && newSelection.length > maxSelected`
(an absent or zero `maxSelected` disables the check). -/
def handleToggleMember (cfg : ToggleConfig) (selectedIds : List String)
    (memberId : String) : List String :=
  if cfg.disabled then selectedIds
  else
    match cfg.variant with
    | Variant.single =>
      if memberId ∈ selectedIds then
        if cfg.allowClear then [] else selectedIds
      else [memberId]
    | Variant.multiple =>
      let newSelection :=
        if memberId ∈ selectedIds then selectedIds.filter (fun i => i != memberId)
        else selectedIds ++ [memberId]
      match cfg.maxSelected with
      | Option.none => newSelection
      | Option.some k => if k ≠ 0 ∧ newSelection.length > k then selectedIds else newSelection

-- ===========================================================================
-- Cascading role-option derivation (`availableRoles`) and the role-filter
-- clearing effect
-- ===========================================================================

/-- Embedding of the `availableRoles` memo: with a chosen department, keep the
roles (in `roles` order) that occur as the truthy `role` of some member of
that department. -/
def availableRoles (teamMembers : List TeamMember) (departmentFilter : String)
    (roles : List String) : List String :=
  if departmentFilter = "" then roles
  else
    roles.filter (fun role =>
      teamMembers.any (fun m =>
        m.orgDepartment == Option.some departmentFilter &&
          (match m.role with
           | Option.some r => (r != "") && (r == role)
           | Option.none => false)))

/-- Embedding of the role-clearing effect (source lines 395-399): after any
filter-state change, a truthy role filter that is no longer among the
available roles is reset to the empty string. -/
def reconcileRoleFilter (teamMembers : List TeamMember) (roles : List String)
    (departmentFilter roleFilter : String) : String :=
  if roleFilter ≠ "" ∧ roleFilter ∉ availableRoles teamMembers departmentFilter roles
  then "" else roleFilter

-- ===========================================================================
-- Filter stage (`filteredMembers`)
-- ===========================================================================

/-- Per-member predicate of the `filteredMembers` memo (search, department
and role criteria, ANDed, with the JS truthiness guards of the source). -/
def memberMatches (searchTerm departmentFilter roleFilter : String)
    (member : TeamMember) : Bool :=
  let searchLower := lowerStr searchTerm
  let matchesSearch :=
    (searchTerm == "") ||
    jsIncludes (lowerStr member.name.fullName) searchLower ||
    jsIncludes (lowerStr member.primaryEmail) searchLower ||
    (match member.role with
     | Option.some r => (r != "") && jsIncludes (lowerStr r) searchLower
     | Option.none => false) ||
    (match member.orgTitle with
     | Option.some t => (t != "") && jsIncludes (lowerStr t) searchLower
     | Option.none => false)
  let matchesDepartment :=
    (departmentFilter == "") || (member.orgDepartment == Option.some departmentFilter)
  let matchesRole :=
    (roleFilter == "") || (member.role == Option.some roleFilter)
  matchesSearch && matchesDepartment && matchesRole

/-- Embedding of the `filteredMembers` memo, as a function of the already
sorted roster and the three criteria. -/
def filteredMembers (sorted : List TeamMember)
    (searchTerm departmentFilter roleFilter : String) : List TeamMember :=
  sorted.filter (memberMatches searchTerm departmentFilter roleFilter)

-- ===========================================================================
-- Claims C3, C7, C8, C9 (selection postconditions, cascading consistency,
-- display-name precedence, zero cap)
-- ===========================================================================

/-- Claim C3: in single-selection mode when not disabled, toggling an already
selected id clears the selection when clearing is permitted and is a no-op
otherwise; toggling an unselected id yields exactly the singleton selection;
and with the disabled configuration the toggle is a no-op regardless of mode. -/
theorem toggle_single_mode_postconditions :
    (∀ (mx : Option Nat) (sel : List String) (id : String), id ∈ sel →
      handleToggleMember ⟨false, Variant.single, true, mx⟩ sel id = []) ∧
    (∀ (mx : Option Nat) (sel : List String) (id : String), id ∈ sel →
      handleToggleMember ⟨false, Variant.single, false, mx⟩ sel id = sel) ∧
    (∀ (mx : Option Nat) (ac : Bool) (sel : List String) (id : String), id ∉ sel →
      handleToggleMember ⟨false, Variant.single, ac, mx⟩ sel id = [id]) ∧
    (∀ (cfg : ToggleConfig) (sel : List String) (id : String), cfg.disabled = true →
      handleToggleMember cfg sel id = sel) := by
  refine ⟨?_, ?_, ?_, ?_⟩
  · intro mx sel id h
    simp [handleToggleMember, h]
  · intro mx sel id h
    simp [handleToggleMember, h]
  · intro mx ac sel id h
    simp [handleToggleMember, h]
  · intro cfg sel id h
    simp [handleToggleMember, h]

/-- Witness for C3 at concrete inputs. -/
theorem toggle_single_mode_postconditions_witness :
    ("a" ∈ ["a", "b"] ∧
      handleToggleMember ⟨false, Variant.single, true, Option.none⟩ ["a", "b"] "a" = []) ∧
    ("c" ∉ ["a", "b"] ∧
      handleToggleMember ⟨false, Variant.single, true, Option.none⟩ ["a", "b"] "c" = ["c"]) :=
  ⟨⟨by decide, toggle_single_mode_postconditions.1 Option.none ["a", "b"] "a" (by decide)⟩,
   ⟨by decide, toggle_single_mode_postconditions.2.2.1 Option.none true ["a", "b"] "c" (by decide)⟩⟩

/-- Claim C7: the role-clearing effect establishes the cascading-consistency
invariant: after reconciliation the role filter is empty or is one of the
available roles for the current department, and reconciliation either keeps
the role filter or clears it to empty (it never invents a different role). -/
theorem role_filter_consistency :
    ∀ (tm : List TeamMember) (roles : List String) (dept role : String),
      (reconcileRoleFilter tm roles dept role = "" ∨
        reconcileRoleFilter tm roles dept role ∈ availableRoles tm dept roles) ∧
      (reconcileRoleFilter tm roles dept role = role ∨
        reconcileRoleFilter tm roles dept role = "") := by
  intro tm roles dept role
  unfold reconcileRoleFilter
  split
  · exact ⟨Or.inl rfl, Or.inr rfl⟩
  · next h =>
    push_neg at h
    refine ⟨?_, Or.inl rfl⟩
    by_cases hr : role = ""
    · exact Or.inl hr
    · exact Or.inr (h hr)

/-- Claim C8: display-name formatting and compact precedence. With the
compact flag false the full name is returned; with it true the full name is
the fallback when no (truthy) given name exists, otherwise the abbreviated
form with the family initial when a (truthy) family name exists, else the
given name alone. At the trigger label an explicit override beats the
viewport signal in both directions, and with no override the narrow-viewport
signal decides. -/
theorem display_name_compact_precedence :
    (∀ n : PersonName, formatDisplayName n false = n.fullName) ∧
    (∀ n : PersonName, (n.givenName = Option.none ∨ n.givenName = Option.some "") →
      formatDisplayName n true = n.fullName) ∧
    (∀ (n : PersonName) (g f : String), n.givenName = Option.some g → g ≠ "" →
      n.familyName = Option.some f → f ≠ "" →
      formatDisplayName n true = g ++ " " ++ String.mk (f.data.take 1) ++ ".") ∧
    (∀ (n : PersonName) (g : String), n.givenName = Option.some g → g ≠ "" →
      (n.familyName = Option.none ∨ n.familyName = Option.some "") →
      formatDisplayName n true = g) ∧
    (∀ (n : PersonName) (smUp : Bool), triggerNameLabel n (Option.some false) smUp = n.fullName) ∧
    (∀ (n : PersonName) (smUp : Bool),
      triggerNameLabel n (Option.some true) smUp = formatDisplayName n true) ∧
    (∀ (n : PersonName) (smUp : Bool),
      triggerNameLabel n Option.none smUp = formatDisplayName n (!smUp)) := by
  refine ⟨?_, ?_, ?_, ?_, ?_, ?_, ?_⟩
  · intro n; simp [formatDisplayName]
  · rintro n (h | h) <;> simp [formatDisplayName, h]
  · intro n g f hg hg0 hf hf0
    simp [formatDisplayName, hg, hg0, hf, hf0]
  · rintro n g hg hg0 (hf | hf) <;> simp [formatDisplayName, hg, hg0, hf]
  · intro n smUp; simp [triggerNameLabel, effectiveCompact, formatDisplayName]
  · intro n smUp; simp [triggerNameLabel, effectiveCompact]
  · intro n smUp; simp [triggerNameLabel, effectiveCompact]

/-- Witness for C8 at concrete inputs: explicit compact on a wide viewport
abbreviates, explicit non-compact on a narrow viewport does not. -/
theorem display_name_compact_precedence_witness :
    ("Ada" : String) ≠ "" ∧ ("Byron" : String) ≠ "" ∧
    triggerNameLabel ⟨Option.some "Ada", Option.some "Byron", "Ada Byron King"⟩
      (Option.some true) true = "Ada B." ∧
    triggerNameLabel ⟨Option.some "Ada", Option.some "Byron", "Ada Byron King"⟩
      (Option.some false) false = "Ada Byron King" := by
  refine ⟨by decide, by decide, ?_, ?_⟩
  · have h1 := display_name_compact_precedence.2.2.2.2.2.1
      ⟨Option.some "Ada", Option.some "Byron", "Ada Byron King"⟩ true
    have h2 := display_name_compact_precedence.2.2.1
      ⟨Option.some "Ada", Option.some "Byron", "Ada Byron King"⟩ "Ada" "Byron"
      rfl (by decide) rfl (by decide)
    rw [h1, h2]
    decide
  · exact display_name_compact_precedence.2.2.2.2.1
      ⟨Option.some "Ada", Option.some "Byron", "Ada Byron King"⟩ false

/-- Claim C9: in multiple mode a zero or absent `maxSelected` disables the
cap: toggling an unselected id always appends it, growing the selection by
one, so the selection is unbounded rather than frozen at zero. -/
theorem toggle_zero_cap_disables_limit :
    ∀ (mx : Option Nat) (ac : Bool) (sel : List String) (id : String),
      (mx = Option.none ∨ mx = Option.some 0) → id ∉ sel →
      handleToggleMember ⟨false, Variant.multiple, ac, mx⟩ sel id = sel ++ [id] ∧
      (handleToggleMember ⟨false, Variant.multiple, ac, mx⟩ sel id).length
        = sel.length + 1 := by
  intro mx ac sel id hmx hid
  have hres : handleToggleMember ⟨false, Variant.multiple, ac, mx⟩ sel id = sel ++ [id] := by
    rcases hmx with h | h <;> subst h <;> simp [handleToggleMember, hid]
  exact ⟨hres, by simp [hres]⟩

/-- Witness for C9: with a configured maximum of 0 the selection still grows. -/
theorem toggle_zero_cap_disables_limit_witness :
    (Option.some 0 = Option.none ∨ (Option.some 0 : Option Nat) = Option.some 0) ∧
    ("d" : String) ∉ ["a", "b", "c"] ∧
    handleToggleMember ⟨false, Variant.multiple, true, Option.some 0⟩ ["a", "b", "c"] "d"
      = ["a", "b", "c", "d"] :=
  ⟨Or.inr rfl, by decide,
    (toggle_zero_cap_disables_limit (Option.some 0) true ["a", "b", "c"] "d"
      (Or.inr rfl) (by decide)).1⟩

-- ===========================================================================
-- Claim C1 (multiple-mode cap invariant)
-- ===========================================================================

theorem toggle_multiple_def (ac : Bool) (k : Nat) (sel : List String) (id : String) :
    handleToggleMember ⟨false, Variant.multiple, ac, Option.some k⟩ sel id
      = (if k ≠ 0 ∧ (if id ∈ sel then sel.filter (fun i => i != id) else sel ++ [id]).length > k
         then sel
         else (if id ∈ sel then sel.filter (fun i => i != id) else sel ++ [id])) := rfl

theorem toggleMultiple_length_le (k : Nat) (hk : 0 < k) (ac : Bool)
    (sel : List String) (id : String) (h : sel.length ≤ k) :
    (handleToggleMember ⟨false, Variant.multiple, ac, Option.some k⟩ sel id).length ≤ k := by
  rw [toggle_multiple_def]
  by_cases hm : id ∈ sel
  · rw [if_pos hm]
    split_ifs with hc
    · exact h
    · exact le_trans (List.length_filter_le _ _) h
  · rw [if_neg hm]
    split_ifs with hc
    · exact h
    · have hkk : k ≠ 0 := Nat.pos_iff_ne_zero.mp hk
      have hgt : ¬ (sel ++ [id]).length > k := fun hgt => hc ⟨hkk, hgt⟩
      simp only [List.length_append, List.length_cons, List.length_nil] at hgt ⊢
      omega

/-- Claim C1: with a positive configured maximum `k` in multiple mode,
starting from a selection of cardinality at most `k`, every sequence of
toggles keeps the cardinality at most `k`; a toggle of an unselected id
whose addition would exceed `k` leaves the selection unchanged; a toggle of
an already-selected id removes exactly that id (even at the cap); and no
toggle ever removes any id other than the requested one. -/
theorem toggle_multiple_cap_invariant (k : Nat) (hk : 0 < k) :
    (∀ (ac : Bool) (ops : List String) (sel : List String), sel.length ≤ k →
      (ops.foldl (handleToggleMember ⟨false, Variant.multiple, ac, Option.some k⟩) sel).length
        ≤ k) ∧
    (∀ (ac : Bool) (sel : List String) (id : String), id ∉ sel → sel.length + 1 > k →
      handleToggleMember ⟨false, Variant.multiple, ac, Option.some k⟩ sel id = sel) ∧
    (∀ (ac : Bool) (sel : List String) (id : String), sel.Nodup → id ∈ sel → sel.length ≤ k →
      handleToggleMember ⟨false, Variant.multiple, ac, Option.some k⟩ sel id = sel.erase id) ∧
    (∀ (ac : Bool) (sel : List String) (id x : String), x ∈ sel → x ≠ id →
      x ∈ handleToggleMember ⟨false, Variant.multiple, ac, Option.some k⟩ sel id) := by
  refine ⟨?_, ?_, ?_, ?_⟩
  · intro ac ops
    induction ops with
    | nil => intro sel h; simpa using h
    | cons op ops ih =>
      intro sel h
      simp only [List.foldl_cons]
      exact ih _ (toggleMultiple_length_le k hk ac sel op h)
  · intro ac sel id hm hlen
    rw [toggle_multiple_def, if_neg hm, if_pos]
    refine ⟨Nat.pos_iff_ne_zero.mp hk, ?_⟩
    simpa using hlen
  · intro ac sel id hnd hm hlen
    rw [toggle_multiple_def, if_pos hm, if_neg, hnd.erase_eq_filter id]
    rintro ⟨-, hgt⟩
    exact absurd (le_trans (List.length_filter_le _ _) hlen) (not_le.mpr hgt)
  · intro ac sel id x hx hne
    rw [toggle_multiple_def]
    by_cases hm : id ∈ sel
    · rw [if_pos hm]
      split_ifs with hc
      · exact hx
      · exact List.mem_filter.mpr ⟨hx, by simpa [bne_iff_ne] using hne⟩
    · rw [if_neg hm]
      split_ifs with hc
      · exact hx
      · exact List.mem_append.mpr (Or.inl hx)

/-- Witness for C1, replaying spec example scenario 1: with cap 1, toggling
"1" then "2" from the empty selection keeps at most one id selected, and the
second toggle is a rejected no-op. -/
theorem toggle_multiple_cap_invariant_witness :
    0 < 1 ∧
    (["1", "2"].foldl (handleToggleMember ⟨false, Variant.multiple, true, Option.some 1⟩)
      []).length ≤ 1 ∧
    handleToggleMember ⟨false, Variant.multiple, true, Option.some 1⟩ ["1"] "2" = ["1"] :=
  ⟨by decide,
   (toggle_multiple_cap_invariant 1 (by decide)).1 true ["1", "2"] [] (by decide),
   (toggle_multiple_cap_invariant 1 (by decide)).2.1 true ["1"] "2" (by decide) (by decide)⟩

-- ===========================================================================
-- Keyboard navigation (`handleArrowNavigation`), claims C4 and C10
-- ===========================================================================

/-- Fallback member used to totalize list indexing; the source only indexes
at positions its guards have already put in bounds. -/
def fallbackMember : TeamMember :=
  ⟨"", ⟨Option.none, Option.none, ""⟩, "", Option.none, Option.none, Option.none,
   Option.none, Option.none, Option.none, Option.none⟩

/-- Model of `Array.prototype.findIndex`, returning -1 when no row matches. -/
def findIndexInt (p : TeamMember → Bool) : List TeamMember → Int
  | [] => -1
  | m :: rest =>
    if p m then 0
    else
      let r := findIndexInt p rest
      if r = -1 then -1 else r + 1

/-- Current index of the first selected id inside the filtered view, with
the JS falsiness of `selectedIds[0]` (`undefined` or empty string gives -1). -/
def currentNavIndex (filtered : List TeamMember) (selectedIds : List String) : Int :=
  match selectedIds.head? with
  | Option.none => -1
  | Option.some id =>
    if id = "" then -1 else findIndexInt (fun m => m._id == id) filtered

/-- Wrap-around index stepping of `handleArrowNavigation`. -/
def wrapIndex (len currentIndex : Int) : Direction → Int
  | Direction.down => if currentIndex ≥ len - 1 then 0 else currentIndex + 1
  | Direction.up => if currentIndex ≤ 0 then len - 1 else currentIndex - 1

/-- Embedding of `handleArrowNavigation`: a no-op when the filtered view is
empty or the variant is not single; otherwise the current index is stepped
with wrap-around and the selection is replaced by the member at the new
index. -/
def handleArrowNavigation (filtered : List TeamMember) (variant : Variant)
    (selectedIds : List String) (direction : Direction) : List String :=
  if filtered.length = 0 ∨ variant ≠ Variant.single then selectedIds
  else
    [(filtered.getD
        (wrapIndex (filtered.length : Int) (currentNavIndex filtered selectedIds)
          direction).toNat
        fallbackMember)._id]

theorem findIndexInt_of_forall_false (p : TeamMember → Bool) (l : List TeamMember)
    (h : ∀ m ∈ l, p m = false) : findIndexInt p l = -1 := by
  induction l with
  | nil => rfl
  | cons m rest ih =>
    simp only [findIndexInt, h m (List.mem_cons_self m rest), if_false]
    rw [ih (fun x hx => h x (List.mem_cons_of_mem m hx))]
    simp

theorem findIndexInt_at_index (l : List TeamMember)
    (hn : (l.map TeamMember._id).Nodup) (i : Nat) (hi : i < l.length) :
    findIndexInt (fun m => m._id == (l.getD i fallbackMember)._id) l = (i : Int) := by
  induction l generalizing i with
  | nil => simp at hi
  | cons m rest ih =>
    rw [List.map_cons, List.nodup_cons] at hn
    obtain ⟨hm1, htl⟩ := hn
    cases i with
    | zero =>
      simp only [List.getD_cons_zero, findIndexInt, beq_self_eq_true, if_true, Nat.cast_zero]
    | succ j =>
      have hj : j < rest.length := by simpa using hi
      have hmem : rest.getD j fallbackMember ∈ rest := by
        rw [List.getD_eq_getElem rest fallbackMember hj]
        exact List.getElem_mem hj
      have hne : (m._id == (rest.getD j fallbackMember)._id) = false := by
        rw [beq_eq_false_iff_ne]
        intro he
        exact hm1 (List.mem_map.mpr ⟨rest.getD j fallbackMember, hmem, he.symm⟩)
      simp only [List.getD_cons_succ, findIndexInt, hne, if_false]
      rw [ih htl j hj]
      have hj1 : ((j : Int)) ≠ -1 := by omega
      rw [if_neg hj1]
      push_cast
      ring

theorem currentNavIndex_at_index (l : List TeamMember)
    (hn : (l.map TeamMember._id).Nodup) (i : Nat) (hi : i < l.length)
    (hid : (l.getD i fallbackMember)._id ≠ "") :
    currentNavIndex l [(l.getD i fallbackMember)._id] = (i : Int) := by
  unfold currentNavIndex
  simp only [List.head?_cons]
  rw [if_neg hid]
  exact findIndexInt_at_index l hn i hi

theorem currentNavIndex_out_of_view (l : List TeamMember) (sel : List String)
    (hsel : sel.head? = Option.none ∨
      ∃ id, sel.head? = Option.some id ∧ id ∉ l.map TeamMember._id) :
    currentNavIndex l sel = -1 := by
  unfold currentNavIndex
  rcases hsel with h | ⟨id, hh, hni⟩
  · rw [h]
  · rw [hh]
    simp only
    by_cases hid : id = ""
    · rw [if_pos hid]
    · rw [if_neg hid]
      apply findIndexInt_of_forall_false
      intro m hm
      rw [beq_eq_false_iff_ne]
      intro he
      exact hni (List.mem_map.mpr ⟨m, hm, he⟩)

theorem nav_down_at_index (l : List TeamMember)
    (hn : (l.map TeamMember._id).Nodup) (hne : ∀ m ∈ l, m._id ≠ "")
    (i : Nat) (hi : i < l.length) :
    handleArrowNavigation l Variant.single [(l.getD i fallbackMember)._id] Direction.down
      = [(l.getD ((i + 1) % l.length) fallbackMember)._id] := by
  have hlen : l.length ≠ 0 := Nat.pos_iff_ne_zero.mp (lt_of_le_of_lt (Nat.zero_le i) hi)
  have hmem : l.getD i fallbackMember ∈ l := by
    rw [List.getD_eq_getElem l fallbackMember hi]
    exact List.getElem_mem hi
  unfold handleArrowNavigation
  rw [if_neg (by simp [hlen])]
  rw [currentNavIndex_at_index l hn i hi (hne _ hmem)]
  simp only [wrapIndex]
  by_cases hlast : i + 1 = l.length
  · rw [if_pos (by omega)]
    have h2 : (i + 1) % l.length = 0 := by rw [hlast]; exact Nat.mod_self _
    rw [h2]
    rfl
  · rw [if_neg (by omega)]
    have h1 : ((i : Int) + 1).toNat = i + 1 := by omega
    have h2 : (i + 1) % l.length = i + 1 := Nat.mod_eq_of_lt (by omega)
    rw [h1, h2]

theorem nav_down_iterate (l : List TeamMember)
    (hn : (l.map TeamMember._id).Nodup) (hne : ∀ m ∈ l, m._id ≠ "")
    (t i : Nat) (hi : i < l.length) :
    (fun sel => handleArrowNavigation l Variant.single sel Direction.down)^[t]
        [(l.getD i fallbackMember)._id]
      = [(l.getD ((i + t) % l.length) fallbackMember)._id] := by
  induction t generalizing i with
  | zero => simp [Nat.mod_eq_of_lt hi]
  | succ t ih =>
    rw [Function.iterate_succ_apply]
    have hstep := nav_down_at_index l hn hne i hi
    simp only [hstep]
    have hlt : (i + 1) % l.length < l.length :=
      Nat.mod_lt _ (lt_of_le_of_lt (Nat.zero_le i) hi)
    rw [ih _ hlt]
    have harith : ((i + 1) % l.length + t) % l.length = (i + (t + 1)) % l.length := by
      rw [Nat.mod_add_mod]
      congr 1
      omega
    rw [harith]

theorem nav_up_at_zero (l : List TeamMember)
    (hn : (l.map TeamMember._id).Nodup) (hne : ∀ m ∈ l, m._id ≠ "")
    (h0 : 0 < l.length) :
    handleArrowNavigation l Variant.single [(l.getD 0 fallbackMember)._id] Direction.up
      = [(l.getD (l.length - 1) fallbackMember)._id] := by
  have hmem : l.getD 0 fallbackMember ∈ l := by
    rw [List.getD_eq_getElem l fallbackMember h0]
    exact List.getElem_mem h0
  unfold handleArrowNavigation
  rw [if_neg (by simp [Nat.pos_iff_ne_zero.mp h0])]
  rw [currentNavIndex_at_index l hn 0 h0 (hne _ hmem)]
  simp only [wrapIndex]
  rw [if_pos (by omega)]
  have h1 : ((l.length : Int) - 1).toNat = l.length - 1 := by omega
  rw [h1]

/-- Claim C4 (amended): in single mode, over a filtered view whose ids are
distinct and non-empty, `N` forward steps starting from the selection of any
view member return to that selection; one forward step from the last index
wraps to index 0; one backward step from index 0 wraps to the last index.
The original claim quantified over arbitrary starting selections, which
fails for a selection outside the view (see the counterexample). -/
theorem navigation_wraparound_cycle (l : List TeamMember)
    (hn : (l.map TeamMember._id).Nodup) (hne : ∀ m ∈ l, m._id ≠ "")
    (i : Nat) (hi : i < l.length) :
    (fun sel => handleArrowNavigation l Variant.single sel Direction.down)^[l.length]
        [(l.getD i fallbackMember)._id] = [(l.getD i fallbackMember)._id] ∧
    handleArrowNavigation l Variant.single [(l.getD (l.length - 1) fallbackMember)._id]
      Direction.down = [(l.getD 0 fallbackMember)._id] ∧
    handleArrowNavigation l Variant.single [(l.getD 0 fallbackMember)._id]
      Direction.up = [(l.getD (l.length - 1) fallbackMember)._id] := by
  have h0 : 0 < l.length := lt_of_le_of_lt (Nat.zero_le i) hi
  refine ⟨?_, ?_, ?_⟩
  · rw [nav_down_iterate l hn hne l.length i hi]
    have harith : (i + l.length) % l.length = i := by
      rw [Nat.add_mod_right]
      exact Nat.mod_eq_of_lt hi
    rw [harith]
  · have hlast : l.length - 1 < l.length := by omega
    rw [nav_down_at_index l hn hne (l.length - 1) hlast]
    have harith : (l.length - 1 + 1) % l.length = 0 := by
      have : l.length - 1 + 1 = l.length := by omega
      rw [this]
      exact Nat.mod_self _
    rw [harith]
  · exact nav_up_at_zero l hn hne h0

/-- Counterexample for C4 as frozen: for a one-element filtered view, one
forward step (N = 1 applications) from the empty starting selection yields
the selection of the sole view member, not the original empty selection. -/
theorem navigation_wraparound_counterexample :
    (fun sel => handleArrowNavigation
        [⟨"a", ⟨Option.none, Option.none, "A"⟩, "", Option.none, Option.none,
          Option.none, Option.none, Option.none, Option.none, Option.none⟩]
        Variant.single sel Direction.down)^[1] [] ≠ ([] : List String) := by
  decide

/-- Witness for C4 at a concrete three-member view, matching spec example
scenario 6 (stepping forward from the last entry wraps to index 0). -/
theorem navigation_wraparound_cycle_witness :
    (([⟨"1", ⟨Option.none, Option.none, "A"⟩, "", Option.none, Option.none, Option.none,
        Option.none, Option.none, Option.none, Option.none⟩,
       ⟨"2", ⟨Option.none, Option.none, "B"⟩, "", Option.none, Option.none, Option.none,
        Option.none, Option.none, Option.none, Option.none⟩,
       ⟨"3", ⟨Option.none, Option.none, "C"⟩, "", Option.none, Option.none, Option.none,
        Option.none, Option.none, Option.none, Option.none⟩] :
      List TeamMember).map TeamMember._id).Nodup ∧
    handleArrowNavigation
      [⟨"1", ⟨Option.none, Option.none, "A"⟩, "", Option.none, Option.none, Option.none,
        Option.none, Option.none, Option.none, Option.none⟩,
       ⟨"2", ⟨Option.none, Option.none, "B"⟩, "", Option.none, Option.none, Option.none,
        Option.none, Option.none, Option.none, Option.none⟩,
       ⟨"3", ⟨Option.none, Option.none, "C"⟩, "", Option.none, Option.none, Option.none,
        Option.none, Option.none, Option.none, Option.none⟩]
      Variant.single ["3"] Direction.down = ["1"] := by
  constructor
  · decide
  · have h := (navigation_wraparound_cycle
      [⟨"1", ⟨Option.none, Option.none, "A"⟩, "", Option.none, Option.none, Option.none,
        Option.none, Option.none, Option.none, Option.none⟩,
       ⟨"2", ⟨Option.none, Option.none, "B"⟩, "", Option.none, Option.none, Option.none,
        Option.none, Option.none, Option.none, Option.none⟩,
       ⟨"3", ⟨Option.none, Option.none, "C"⟩, "", Option.none, Option.none, Option.none,
        Option.none, Option.none, Option.none, Option.none⟩]
      (by decide) (by decide) 0 (by decide)).2.1
    simpa using h

/-- Claim C10: in single mode over a non-empty filtered view, when the
selection is empty or its first id does not occur in the view, a forward
step selects exactly the first view member and a backward step selects
exactly the last view member. -/
theorem navigation_out_of_view_start (l : List TeamMember) (sel : List String)
    (h0 : 0 < l.length)
    (hsel : sel.head? = Option.none ∨
      ∃ id, sel.head? = Option.some id ∧ id ∉ l.map TeamMember._id) :
    handleArrowNavigation l Variant.single sel Direction.down
      = [(l.getD 0 fallbackMember)._id] ∧
    handleArrowNavigation l Variant.single sel Direction.up
      = [(l.getD (l.length - 1) fallbackMember)._id] := by
  have hguard : ¬(l.length = 0 ∨ Variant.single ≠ Variant.single) := by
    simp [Nat.pos_iff_ne_zero.mp h0]
  have hcur := currentNavIndex_out_of_view l sel hsel
  constructor
  · unfold handleArrowNavigation
    rw [if_neg hguard, hcur]
    simp only [wrapIndex]
    rw [if_neg (by omega)]
    rfl
  · unfold handleArrowNavigation
    rw [if_neg hguard, hcur]
    simp only [wrapIndex]
    rw [if_pos (by omega)]
    have h1 : ((l.length : Int) - 1).toNat = l.length - 1 := by omega
    rw [h1]

/-- Witness for C10: from the empty selection over a two-member view, a
forward step selects the first member and a backward step the last. -/
theorem navigation_out_of_view_start_witness :
    0 < ([⟨"x", ⟨Option.none, Option.none, "X"⟩, "", Option.none, Option.none, Option.none,
          Option.none, Option.none, Option.none, Option.none⟩,
         ⟨"y", ⟨Option.none, Option.none, "Y"⟩, "", Option.none, Option.none, Option.none,
          Option.none, Option.none, Option.none, Option.none⟩] : List TeamMember).length ∧
    handleArrowNavigation
      [⟨"x", ⟨Option.none, Option.none, "X"⟩, "", Option.none, Option.none, Option.none,
        Option.none, Option.none, Option.none, Option.none⟩,
       ⟨"y", ⟨Option.none, Option.none, "Y"⟩, "", Option.none, Option.none, Option.none,
        Option.none, Option.none, Option.none, Option.none⟩]
      Variant.single [] Direction.down = ["x"] := by
  constructor
  · decide
  · have h := (navigation_out_of_view_start
      [⟨"x", ⟨Option.none, Option.none, "X"⟩, "", Option.none, Option.none, Option.none,
        Option.none, Option.none, Option.none, Option.none⟩,
       ⟨"y", ⟨Option.none, Option.none, "Y"⟩, "", Option.none, Option.none, Option.none,
        Option.none, Option.none, Option.none, Option.none⟩]
      [] (by decide) (Or.inl rfl)).1
    simpa using h

-- ===========================================================================
-- Claim C5 (filter stage semantics)
-- ===========================================================================

/-- Spec-side predicate: the search text occurs case-insensitively as a
literal substring of the field. -/
def matchesCaseInsensitive (search field : String) : Prop :=
  (lowerStr search).data <:+: (lowerStr field).data

/-- Spec-side search predicate: empty search matches everything; otherwise
any of full display name, contact identifier, role or title may match. -/
def specSearchMatch (search : String) (m : TeamMember) : Prop :=
  search = "" ∨
  matchesCaseInsensitive search m.name.fullName ∨
  matchesCaseInsensitive search m.primaryEmail ∨
  (∃ r, m.role = Option.some r ∧ matchesCaseInsensitive search r) ∨
  (∃ t, m.orgTitle = Option.some t ∧ matchesCaseInsensitive search t)

/-- Spec-side department predicate: empty filter matches everything,
otherwise exact match on the department field. -/
def specDeptMatch (dept : String) (m : TeamMember) : Prop :=
  dept = "" ∨ m.orgDepartment = Option.some dept

/-- Spec-side role predicate: empty filter matches everything, otherwise
exact match on the role field. -/
def specRoleMatch (role : String) (m : TeamMember) : Prop :=
  role = "" ∨ m.role = Option.some role

theorem jsIncludes_lower_iff (s f : String) :
    jsIncludes (lowerStr f) (lowerStr s) = true ↔ matchesCaseInsensitive s f := by
  simp [jsIncludes, matchesCaseInsensitive]

theorem matchesCaseInsensitive_empty_field (s : String) (hs : s ≠ "") :
    ¬ matchesCaseInsensitive s "" := by
  intro hci
  unfold matchesCaseInsensitive at hci
  have h0 : (lowerStr "").data = [] := rfl
  rw [h0, List.infix_nil] at hci
  exact hs ((lowerStr_data_eq_nil_iff s).mp hci)

theorem searchBool_iff (s : String) (m : TeamMember) :
    ((s == "") ||
     jsIncludes (lowerStr m.name.fullName) (lowerStr s) ||
     jsIncludes (lowerStr m.primaryEmail) (lowerStr s) ||
     (match m.role with
      | Option.some r => (r != "") && jsIncludes (lowerStr r) (lowerStr s)
      | Option.none => false) ||
     (match m.orgTitle with
      | Option.some t => (t != "") && jsIncludes (lowerStr t) (lowerStr s)
      | Option.none => false)) = true ↔ specSearchMatch s m := by
  by_cases hs : s = ""
  · subst hs
    simp [specSearchMatch]
  · have haux : ∀ rr : String,
        (rr ≠ "" ∧ matchesCaseInsensitive s rr) ↔ matchesCaseInsensitive s rr := by
      intro rr
      constructor
      · rintro ⟨-, h⟩; exact h
      · intro h
        refine ⟨?_, h⟩
        rintro rfl
        exact matchesCaseInsensitive_empty_field s hs h
    cases hrole : m.role <;> cases htitle : m.orgTitle <;>
      simp [specSearchMatch, jsIncludes_lower_iff, hs, haux, hrole, htitle] <;>
      tauto

theorem memberMatches_iff (s d r : String) (m : TeamMember) :
    memberMatches s d r m = true ↔
      specSearchMatch s m ∧ specDeptMatch d m ∧ specRoleMatch r m := by
  unfold memberMatches
  simp only [Bool.and_eq_true]
  rw [searchBool_iff]
  constructor
  · rintro ⟨⟨hsearch, hdept⟩, hrole⟩
    refine ⟨hsearch, ?_, ?_⟩
    · rcases Bool.or_eq_true_iff.mp hdept with h | h
      · exact Or.inl (by simpa using h)
      · exact Or.inr (by simpa using h)
    · rcases Bool.or_eq_true_iff.mp hrole with h | h
      · exact Or.inl (by simpa using h)
      · exact Or.inr (by simpa using h)
  · rintro ⟨hsearch, hdept, hrole⟩
    refine ⟨⟨hsearch, ?_⟩, ?_⟩
    · rcases hdept with h | h
      · exact Bool.or_eq_true_iff.mpr (Or.inl (by simpa using h))
      · exact Bool.or_eq_true_iff.mpr (Or.inr (by simpa using h))
    · rcases hrole with h | h
      · exact Bool.or_eq_true_iff.mpr (Or.inl (by simpa using h))
      · exact Bool.or_eq_true_iff.mpr (Or.inr (by simpa using h))

/-- Claim C5: the filter stage keeps exactly the members satisfying the
conjunction of the three spec predicates (case-insensitive substring search
over name, contact identifier, role and title; exact department match;
exact role match; empty criterion matches everything), and it preserves the
relative order of the input roster. -/
theorem filter_stage_semantics :
    ∀ (roster : List TeamMember) (s d r : String),
      (filteredMembers roster s d r).Sublist roster ∧
      ∀ m, m ∈ filteredMembers roster s d r ↔
        m ∈ roster ∧ specSearchMatch s m ∧ specDeptMatch d m ∧ specRoleMatch r m := by
  intro roster s d r
  refine ⟨List.filter_sublist roster, ?_⟩
  intro m
  rw [filteredMembers, List.mem_filter, memberMatches_iff]

/-- Witness for C5 at a concrete member and criteria. -/
theorem filter_stage_semantics_witness :
    (⟨"1", ⟨Option.some "Alice", Option.none, "Alice Smith"⟩, "alice@x.com", Option.none,
        Option.some "Dev", Option.none, Option.some "Eng", Option.none, Option.none,
        Option.none⟩ : TeamMember) ∈
      filteredMembers
        [⟨"1", ⟨Option.some "Alice", Option.none, "Alice Smith"⟩, "alice@x.com", Option.none,
          Option.some "Dev", Option.none, Option.some "Eng", Option.none, Option.none,
          Option.none⟩] "ali" "" "" ↔
    (⟨"1", ⟨Option.some "Alice", Option.none, "Alice Smith"⟩, "alice@x.com", Option.none,
        Option.some "Dev", Option.none, Option.some "Eng", Option.none, Option.none,
        Option.none⟩ : TeamMember) ∈
      [⟨"1", ⟨Option.some "Alice", Option.none, "Alice Smith"⟩, "alice@x.com", Option.none,
        Option.some "Dev", Option.none, Option.some "Eng", Option.none, Option.none,
        Option.none⟩] ∧
    specSearchMatch "ali"
      ⟨"1", ⟨Option.some "Alice", Option.none, "Alice Smith"⟩, "alice@x.com", Option.none,
        Option.some "Dev", Option.none, Option.some "Eng", Option.none, Option.none,
        Option.none⟩ ∧
    specDeptMatch ""
      ⟨"1", ⟨Option.some "Alice", Option.none, "Alice Smith"⟩, "alice@x.com", Option.none,
        Option.some "Dev", Option.none, Option.some "Eng", Option.none, Option.none,
        Option.none⟩ ∧
    specRoleMatch ""
      ⟨"1", ⟨Option.some "Alice", Option.none, "Alice Smith"⟩, "alice@x.com", Option.none,
        Option.some "Dev", Option.none, Option.some "Eng", Option.none, Option.none,
        Option.none⟩ :=
  (filter_stage_semantics
    [⟨"1", ⟨Option.some "Alice", Option.none, "Alice Smith"⟩, "alice@x.com", Option.none,
      Option.some "Dev", Option.none, Option.some "Eng", Option.none, Option.none,
      Option.none⟩] "ali" "" "").2 _

-- ===========================================================================
-- Claim C6 (cascading role-option derivation)
-- ===========================================================================

theorem availableRolesPred_iff (dept role : String) (m : TeamMember) :
    ((m.orgDepartment == Option.some dept) &&
      (match m.role with
       | Option.some r => (r != "") && (r == role)
       | Option.none => false)) = true ↔
    (m.orgDepartment = Option.some dept ∧ m.role = Option.some role ∧ role ≠ "") := by
  cases hr : m.role with
  | none => simp [hr]
  | some rr =>
    simp only [Bool.and_eq_true, beq_iff_eq, bne_iff_ne, hr, Option.some.injEq]
    constructor
    · rintro ⟨hd, hne, rfl⟩
      exact ⟨hd, rfl, hne⟩
    · rintro ⟨hd, rfl, hne⟩
      exact ⟨hd, hne, rfl⟩

/-- Claim C6 (amended): with no chosen department the role options pass
through unchanged; with a chosen department the result is the subsequence of
`allRoles` (original order preserved) of exactly those roles occurring as
the non-empty role of some roster member of that department. The original
claim did not except the empty-string role value, which the code's
truthiness guard drops (see the counterexample). -/
theorem available_roles_cascade :
    ∀ (tm : List TeamMember) (roles : List String) (dept : String),
      (dept = "" → availableRoles tm dept roles = roles) ∧
      (dept ≠ "" →
        (availableRoles tm dept roles).Sublist roles ∧
        ∀ role, role ∈ availableRoles tm dept roles ↔
          role ∈ roles ∧ ∃ m ∈ tm, m.orgDepartment = Option.some dept ∧
            m.role = Option.some role ∧ role ≠ "") := by
  intro tm roles dept
  constructor
  · intro h
    simp [availableRoles, h]
  · intro h
    rw [availableRoles, if_neg h]
    refine ⟨List.filter_sublist roles, ?_⟩
    intro role
    rw [List.mem_filter, List.any_eq_true]
    simp only [availableRolesPred_iff]

/-- Counterexample for C6 as frozen: the empty string occurs in `allRoles`
and as the `role` value of a roster member of the chosen department, yet the
code excludes it (its truthiness guard `m.role &&` drops empty-string
roles), so the result is not "exactly the elements of allRoles occurring as
the role of some member of the department". -/
theorem available_roles_empty_role_counterexample :
    availableRoles
      [⟨"1", ⟨Option.none, Option.none, "P"⟩, "", Option.none, Option.some "",
        Option.none, Option.some "D", Option.none, Option.none, Option.none⟩]
      "D" [""] = [] ∧
    (⟨"1", ⟨Option.none, Option.none, "P"⟩, "", Option.none, Option.some "",
        Option.none, Option.some "D", Option.none, Option.none, Option.none⟩ :
      TeamMember).orgDepartment = Option.some "D" ∧
    (⟨"1", ⟨Option.none, Option.none, "P"⟩, "", Option.none, Option.some "",
        Option.none, Option.some "D", Option.none, Option.none, Option.none⟩ :
      TeamMember).role = Option.some "" ∧
    ("" : String) ∈ [""] := by
  refine ⟨?_, rfl, rfl, by decide⟩
  decide

/-- Witness for C6 at a concrete department and role list. -/
theorem available_roles_cascade_witness :
    ("Eng" : String) ≠ "" ∧
    ("Dev" ∈ availableRoles
        [⟨"1", ⟨Option.none, Option.none, "P"⟩, "", Option.none, Option.some "Dev",
          Option.none, Option.some "Eng", Option.none, Option.none, Option.none⟩]
        "Eng" ["Dev", "Design"] ↔
      "Dev" ∈ ["Dev", "Design"] ∧
      ∃ m ∈ [(⟨"1", ⟨Option.none, Option.none, "P"⟩, "", Option.none, Option.some "Dev",
          Option.none, Option.some "Eng", Option.none, Option.none, Option.none⟩ :
          TeamMember)],
        m.orgDepartment = Option.some "Eng" ∧ m.role = Option.some "Dev" ∧
          ("Dev" : String) ≠ "") :=
  ⟨by decide,
   ((available_roles_cascade
      [⟨"1", ⟨Option.none, Option.none, "P"⟩, "", Option.none, Option.some "Dev",
        Option.none, Option.some "Eng", Option.none, Option.none, Option.none⟩]
      ["Dev", "Design"] "Eng").2 (by decide)).2 "Dev"⟩

-- ===========================================================================
-- Sort stage (`sortedMembers`), claim C2
-- ===========================================================================

/-- Embedding of the management comparator of `sortedMembers`: current user
first, then direct subordinates, then siblings, then `localeCompare` on the
full display name. -/
def managementCompare (cid : String) (reports siblings : List String)
    (a b : TeamMember) : Int :=
  if a._id = cid then -1
  else if b._id = cid then 1
  else
    if reports.contains a._id = true ∧ reports.contains b._id = false then -1
    else if reports.contains a._id = false ∧ reports.contains b._id = true then 1
    else
      if siblings.contains a._id = true ∧ siblings.contains b._id = false then -1
      else if siblings.contains a._id = false ∧ siblings.contains b._id = true then 1
      else localeCompareInt a.name.fullName b.name.fullName

/-- Nonstrict order induced by the management comparator (`compare <= 0`),
the relation a stable comparator sort realizes. -/
def managementLe (cid : String) (reports siblings : List String)
    (a b : TeamMember) : Prop :=
  managementCompare cid reports siblings a b ≤ 0

instance (cid : String) (reports siblings : List String) :
    DecidableRel (managementLe cid reports siblings) :=
  fun _ _ => Int.decLe _ _

/-- Direct-subordinate id set of the current user
(`currentUser.directReports || []`). -/
def currentReports (cu : TeamMember) : List String :=
  cu.directReports.getD []

/-- Sibling id set: the declared subordinate list of the current user's
superior, resolved in the roster (`myManager?.directReports || []`). -/
def currentSiblings (teamMembers : List TeamMember) (cu : TeamMember) : List String :=
  let myManager : Option TeamMember :=
    match cu.reportsTo with
    | Option.none => Option.none
    | Option.some r => teamMembers.find? (fun m => m._id == r)
  (myManager.map (fun mm => mm.directReports.getD [])).getD []

/-- Alphabetical order on the full display name, the relation of the
alphabetical sort mode. -/
def alphaLe (a b : TeamMember) : Prop :=
  strLe a.name.fullName b.name.fullName

instance : DecidableRel alphaLe := fun _ _ => Int.decLe _ _

/-- Embedding of the `sortedMembers` memo. `Array.prototype.sort` (stable)
is modelled by the stable `List.insertionSort`; the management branch
requires a truthy `currentUserId` that resolves in the roster and otherwise
falls back to the identity order. -/
def sortedMembers (teamMembers : List TeamMember) (sortMode : SortMode)
    (currentUserId : Option String) : List TeamMember :=
  match sortMode with
  | SortMode.none => teamMembers
  | SortMode.alphabetical => List.insertionSort alphaLe teamMembers
  | SortMode.management =>
    match currentUserId with
    | Option.none => teamMembers
    | Option.some cid =>
      if cid = "" then teamMembers
      else
        match teamMembers.find? (fun m => m._id == cid) with
        | Option.none => teamMembers
        | Option.some currentUser =>
          List.insertionSort
            (managementLe cid (currentReports currentUser)
              (currentSiblings teamMembers currentUser))
            teamMembers

/-- Spec-side tier rank of a member for the management sort: current user 0;
subordinates 1 (also a sibling) or 2; siblings 3; everyone else 4. -/
def managementRank (cid : String) (reports siblings : List String)
    (m : TeamMember) : Nat :=
  if m._id = cid then 0
  else if reports.contains m._id = true then
    (if siblings.contains m._id = true then 1 else 2)
  else if siblings.contains m._id = true then 3
  else 4

/-- Spec-side ordering of the management sort: ascending tier rank with the
alphabetical full-name order as tie-break inside a tier. -/
def managementSpecLe (cid : String) (reports siblings : List String)
    (a b : TeamMember) : Prop :=
  managementRank cid reports siblings a < managementRank cid reports siblings b ∨
  (managementRank cid reports siblings a = managementRank cid reports siblings b ∧
    strLe a.name.fullName b.name.fullName)

theorem managementLe_cid_left (cid : String) (R S : List String) (a b : TeamMember)
    (h : a._id = cid) : managementLe cid R S a b := by
  unfold managementLe managementCompare
  rw [if_pos h]
  decide

theorem managementLe_cid_right (cid : String) (R S : List String) (a b : TeamMember)
    (ha : a._id ≠ cid) (hb : b._id = cid) : ¬ managementLe cid R S a b := by
  unfold managementLe managementCompare
  rw [if_neg ha, if_pos hb]
  decide

theorem managementRank_eq_zero (cid : String) (R S : List String) (m : TeamMember)
    (h : m._id = cid) : managementRank cid R S m = 0 := by
  unfold managementRank
  rw [if_pos h]

theorem managementRank_pos (cid : String) (R S : List String) (m : TeamMember)
    (h : m._id ≠ cid) : 0 < managementRank cid R S m := by
  unfold managementRank
  rw [if_neg h]
  split_ifs <;> omega

theorem managementLe_iff_rank (cid : String) (R S : List String) (a b : TeamMember)
    (ha : a._id ≠ cid) (hb : b._id ≠ cid) :
    managementLe cid R S a b ↔ managementSpecLe cid R S a b := by
  simp only [managementLe, managementCompare, managementSpecLe, managementRank]
  cases hra : R.contains a._id <;> cases hrb : R.contains b._id <;>
  cases hsa : S.contains a._id <;> cases hsb : S.contains b._id <;>
    simp [ha, hb, hra, hrb, hsa, hsb, strLe]

theorem managementLe_trans (cid : String) (R S : List String) (a b c : TeamMember)
    (h1 : managementLe cid R S a b) (h2 : managementLe cid R S b c) :
    managementLe cid R S a c := by
  by_cases ha : a._id = cid
  · exact managementLe_cid_left cid R S a c ha
  · have hb : b._id ≠ cid := fun hb => managementLe_cid_right cid R S a b ha hb h1
    have hc : c._id ≠ cid := fun hc => managementLe_cid_right cid R S b c hb hc h2
    rw [managementLe_iff_rank cid R S a b ha hb] at h1
    rw [managementLe_iff_rank cid R S b c hb hc] at h2
    rw [managementLe_iff_rank cid R S a c ha hc]
    unfold managementSpecLe at h1 h2 ⊢
    rcases h1 with h1 | ⟨h1e, h1s⟩ <;> rcases h2 with h2 | ⟨h2e, h2s⟩
    · exact Or.inl (lt_trans h1 h2)
    · exact Or.inl (h2e ▸ h1)
    · exact Or.inl (h1e ▸ h2)
    · exact Or.inr ⟨h1e.trans h2e, strLe_trans h1s h2s⟩

theorem managementLe_total (cid : String) (R S : List String) (a b : TeamMember) :
    managementLe cid R S a b ∨ managementLe cid R S b a := by
  by_cases ha : a._id = cid
  · exact Or.inl (managementLe_cid_left cid R S a b ha)
  · by_cases hb : b._id = cid
    · exact Or.inr (managementLe_cid_left cid R S b a hb)
    · rw [managementLe_iff_rank cid R S a b ha hb,
        managementLe_iff_rank cid R S b a hb ha]
      unfold managementSpecLe
      rcases Nat.lt_trichotomy (managementRank cid R S a) (managementRank cid R S b)
        with h | h | h
      · exact Or.inl (Or.inl h)
      · rcases strLe_total a.name.fullName b.name.fullName with hs | hs
        · exact Or.inl (Or.inr ⟨h, hs⟩)
        · exact Or.inr (Or.inr ⟨h.symm, hs⟩)
      · exact Or.inr (Or.inl h)

/-- Claim C2 (amended): for a roster with distinct ids and a non-empty
`currentUserId` that resolves to roster member `cu`, the management sort is
a permutation of the roster that places the current user first and is
ordered by ascending tier — current user, then direct subordinates (with
subordinates who are also siblings before those who are not), then
siblings, then everyone else — with the alphabetical full-name order as the
tie-break inside each tier. The original claim ordered the whole subordinate
tier alphabetically, which the comparator's sibling test overrides (see the
counterexample). -/
theorem management_sort_ordering (roster : List TeamMember) (cid : String)
    (cu : TeamMember) (hcid : cid ≠ "")
    (hnodup : (roster.map TeamMember._id).Nodup)
    (hfind : roster.find? (fun m => m._id == cid) = Option.some cu) :
    (sortedMembers roster SortMode.management (Option.some cid)).Perm roster ∧
    (sortedMembers roster SortMode.management (Option.some cid)).head? = Option.some cu ∧
    List.Pairwise
      (managementSpecLe cid (currentReports cu) (currentSiblings roster cu))
      (sortedMembers roster SortMode.management (Option.some cid)) := by
  have hout : sortedMembers roster SortMode.management (Option.some cid)
      = List.insertionSort
          (managementLe cid (currentReports cu) (currentSiblings roster cu)) roster := by
    simp only [sortedMembers]
    rw [if_neg hcid, hfind]
  have hcu_id : cu._id = cid := by simpa using List.find?_some hfind
  have hcu_mem : cu ∈ roster := List.mem_of_find?_eq_some hfind
  have hinj : ∀ x ∈ roster, ∀ y ∈ roster, x._id = y._id → x = y := by
    intro x hx y hy hxy
    exact List.inj_on_of_nodup_map hnodup hx hy hxy
  have hperm : (sortedMembers roster SortMode.management (Option.some cid)).Perm roster := by
    rw [hout]
    exact List.perm_insertionSort _ _
  haveI : IsTotal TeamMember
      (managementLe cid (currentReports cu) (currentSiblings roster cu)) :=
    ⟨managementLe_total cid _ _⟩
  haveI : IsTrans TeamMember
      (managementLe cid (currentReports cu) (currentSiblings roster cu)) :=
    ⟨managementLe_trans cid _ _⟩
  have hsorted : List.Sorted
      (managementLe cid (currentReports cu) (currentSiblings roster cu))
      (sortedMembers roster SortMode.management (Option.some cid)) := by
    rw [hout]
    exact List.sorted_insertionSort _ _
  refine ⟨hperm, ?_, ?_⟩
  · cases hl : sortedMembers roster SortMode.management (Option.some cid) with
    | nil =>
      exfalso
      have : cu ∈ sortedMembers roster SortMode.management (Option.some cid) :=
        hperm.mem_iff.mpr hcu_mem
      rw [hl] at this
      simp at this
    | cons x rest =>
      have hcu_in : cu ∈ x :: rest := by
        rw [← hl]
        exact hperm.mem_iff.mpr hcu_mem
      have hx_mem : x ∈ roster := by
        apply hperm.mem_iff.mp
        rw [hl]
        exact List.mem_cons_self x rest
      rcases List.mem_cons.mp hcu_in with hxe | hcu_rest
      · rw [hxe]
        rfl
      · have hs := (List.sorted_cons.mp (hl ▸ hsorted)).1 cu hcu_rest
        by_cases hxid : x._id = cid
        · have hxc : x = cu := hinj x hx_mem cu hcu_mem (hxid.trans hcu_id.symm)
          rw [hxc]
          rfl
        · exact absurd hs (managementLe_cid_right cid _ _ x cu hxid hcu_id)
  · refine List.Pairwise.imp_of_mem ?_ hsorted
    intro a b hamem hbmem hle
    have ha_r : a ∈ roster := hperm.mem_iff.mp hamem
    have hb_r : b ∈ roster := hperm.mem_iff.mp hbmem
    by_cases haid : a._id = cid
    · by_cases hbid : b._id = cid
      · have : a = b := hinj a ha_r b hb_r (haid.trans hbid.symm)
        rw [this]
        exact Or.inr ⟨rfl, strLe_refl _⟩
      · refine Or.inl ?_
        rw [managementRank_eq_zero cid _ _ a haid]
        exact managementRank_pos cid _ _ b hbid
    · have hbid : b._id ≠ cid := by
        intro hb'
        exact managementLe_cid_right cid _ _ a b haid hb' hle
      exact (managementLe_iff_rank cid _ _ a b haid hbid).mp hle

/-- Counterexample for C2 as frozen: person "1" (the current user) has
subordinates "2" (Alice) and "3" (Zed); "3" is also listed in the superior's
subordinate list (a sibling) while "2" is not. The claim orders the
subordinate tier alphabetically, i.e. Alice before Zed, but the comparator
checks sibling status before the name, producing Zed before Alice. -/
theorem management_sort_subordinate_tier_counterexample :
    sortedMembers
      [⟨"0", ⟨Option.none, Option.none, "Boss"⟩, "", Option.none, Option.none,
        Option.none, Option.none, Option.none, Option.some ["1", "3"], Option.none⟩,
       ⟨"1", ⟨Option.none, Option.none, "Me"⟩, "", Option.none, Option.none,
        Option.none, Option.none, Option.none, Option.some ["2", "3"], Option.some "0"⟩,
       ⟨"2", ⟨Option.none, Option.none, "Alice"⟩, "", Option.none, Option.none,
        Option.none, Option.none, Option.none, Option.none, Option.none⟩,
       ⟨"3", ⟨Option.none, Option.none, "Zed"⟩, "", Option.none, Option.none,
        Option.none, Option.none, Option.none, Option.none, Option.none⟩]
      SortMode.management (Option.some "1")
      = [⟨"1", ⟨Option.none, Option.none, "Me"⟩, "", Option.none, Option.none,
          Option.none, Option.none, Option.none, Option.some ["2", "3"], Option.some "0"⟩,
         ⟨"3", ⟨Option.none, Option.none, "Zed"⟩, "", Option.none, Option.none,
          Option.none, Option.none, Option.none, Option.none, Option.none⟩,
         ⟨"2", ⟨Option.none, Option.none, "Alice"⟩, "", Option.none, Option.none,
          Option.none, Option.none, Option.none, Option.none, Option.none⟩,
         ⟨"0", ⟨Option.none, Option.none, "Boss"⟩, "", Option.none, Option.none,
          Option.none, Option.none, Option.none, Option.some ["1", "3"], Option.none⟩] ∧
    sortedMembers
      [⟨"0", ⟨Option.none, Option.none, "Boss"⟩, "", Option.none, Option.none,
        Option.none, Option.none, Option.none, Option.some ["1", "3"], Option.none⟩,
       ⟨"1", ⟨Option.none, Option.none, "Me"⟩, "", Option.none, Option.none,
        Option.none, Option.none, Option.none, Option.some ["2", "3"], Option.some "0"⟩,
       ⟨"2", ⟨Option.none, Option.none, "Alice"⟩, "", Option.none, Option.none,
        Option.none, Option.none, Option.none, Option.none, Option.none⟩,
       ⟨"3", ⟨Option.none, Option.none, "Zed"⟩, "", Option.none, Option.none,
        Option.none, Option.none, Option.none, Option.none, Option.none⟩]
      SortMode.management (Option.some "1")
      ≠ [⟨"1", ⟨Option.none, Option.none, "Me"⟩, "", Option.none, Option.none,
          Option.none, Option.none, Option.none, Option.some ["2", "3"], Option.some "0"⟩,
         ⟨"2", ⟨Option.none, Option.none, "Alice"⟩, "", Option.none, Option.none,
          Option.none, Option.none, Option.none, Option.none, Option.none⟩,
         ⟨"3", ⟨Option.none, Option.none, "Zed"⟩, "", Option.none, Option.none,
          Option.none, Option.none, Option.none, Option.none, Option.none⟩,
         ⟨"0", ⟨Option.none, Option.none, "Boss"⟩, "", Option.none, Option.none,
          Option.none, Option.none, Option.none, Option.some ["1", "3"], Option.none⟩] ∧
    strLe "Alice" "Zed" := by
  refine ⟨by decide, by decide, by decide⟩

/-- Witness for C2, replaying spec example scenario 5: current user "1" with
subordinates "2" and "3", and unrelated "4". -/
theorem management_sort_ordering_witness :
    ("1" : String) ≠ "" ∧
    (([⟨"1", ⟨Option.none, Option.none, "Meredith"⟩, "", Option.none, Option.none,
        Option.none, Option.none, Option.none, Option.some ["2", "3"], Option.none⟩,
       ⟨"2", ⟨Option.none, Option.none, "Alice"⟩, "", Option.none, Option.none,
        Option.none, Option.none, Option.none, Option.none, Option.none⟩,
       ⟨"3", ⟨Option.none, Option.none, "Bob"⟩, "", Option.none, Option.none,
        Option.none, Option.none, Option.none, Option.none, Option.none⟩,
       ⟨"4", ⟨Option.none, Option.none, "Zed"⟩, "", Option.none, Option.none,
        Option.none, Option.none, Option.none, Option.none, Option.none⟩] :
      List TeamMember).map TeamMember._id).Nodup ∧
    (sortedMembers
      [⟨"1", ⟨Option.none, Option.none, "Meredith"⟩, "", Option.none, Option.none,
        Option.none, Option.none, Option.none, Option.some ["2", "3"], Option.none⟩,
       ⟨"2", ⟨Option.none, Option.none, "Alice"⟩, "", Option.none, Option.none,
        Option.none, Option.none, Option.none, Option.none, Option.none⟩,
       ⟨"3", ⟨Option.none, Option.none, "Bob"⟩, "", Option.none, Option.none,
        Option.none, Option.none, Option.none, Option.none, Option.none⟩,
       ⟨"4", ⟨Option.none, Option.none, "Zed"⟩, "", Option.none, Option.none,
        Option.none, Option.none, Option.none, Option.none, Option.none⟩]
      SortMode.management (Option.some "1")).head?
      = Option.some
          ⟨"1", ⟨Option.none, Option.none, "Meredith"⟩, "", Option.none, Option.none,
            Option.none, Option.none, Option.none, Option.some ["2", "3"], Option.none⟩ := by
  refine ⟨by decide, by decide, ?_⟩
  exact (management_sort_ordering
    [⟨"1", ⟨Option.none, Option.none, "Meredith"⟩, "", Option.none, Option.none,
      Option.none, Option.none, Option.none, Option.some ["2", "3"], Option.none⟩,
     ⟨"2", ⟨Option.none, Option.none, "Alice"⟩, "", Option.none, Option.none,
      Option.none, Option.none, Option.none, Option.none, Option.none⟩,
     ⟨"3", ⟨Option.none, Option.none, "Bob"⟩, "", Option.none, Option.none,
      Option.none, Option.none, Option.none, Option.none, Option.none⟩,
     ⟨"4", ⟨Option.none, Option.none, "Zed"⟩, "", Option.none, Option.none,
      Option.none, Option.none, Option.none, Option.none, Option.none⟩]
    "1"
    ⟨"1", ⟨Option.none, Option.none, "Meredith"⟩, "", Option.none, Option.none,
      Option.none, Option.none, Option.none, Option.some ["2", "3"], Option.none⟩
    (by decide) (by decide) (by decide)).2.1
